import Mathlib

/-!
# Verification of the `paradox-typed-db` typed-view layer

This file is a shallow embedding of the binding-compiler runtime of the
repository: the generated column resolver (`TypedTable::new` in
`build.rs`), the generated field accessors, the generated `serde`
serializer, the keyed bucket lookup (`key_iter`, `TypedRow::get`), and
the database assembler (`TypedDatabase::new` in `src/lib.rs`).

The external row store (crate `assembly_fdb`) is modelled from the
contract in the specification (section 6): a raw table exposes an
ordered list of physical column names, a list of hash buckets each
holding a list of rows, and rows expose indexed field access; raw
fields expose per-kind try-convert operations.

Machine-integer conventions: a Rust `i32` key is an `Int` (the claims
never need the range bound, every statement holds for all `Int`
inputs); the cast `key as usize` of the source is modelled for the
64-bit targets the crate is built for, i.e. sign extension to 64 bits
followed by reduction modulo 2^64.  `f32` payloads are opaque bit
patterns (`Nat`); no claim computes with floats.

Rust panics (`unwrap`, `expect`, `panic!`, and integer remainder by
zero) are modelled by an outer `Option`: a `none` result means the
corresponding Rust code panics.
-/

namespace Fdb

/-- A Latin-1 byte string, as compared byte-exactly by the resolver. -/
abbrev ByteStr := List Nat

/-- Raw field values of the row store (`assembly_fdb::mem::Field`).
Float payloads are opaque bit patterns. -/
inductive Field where
  | nothing
  | integer (i : Int)
  | float (bits : Nat)
  | text (s : ByteStr)
  | boolean (b : Bool)
  | bigInt (i : Int)
  | varchar (s : ByteStr)
  deriving DecidableEq, Repr

/-- A raw row: the list of its fields in physical column order. -/
abbrev Row := List Field

/-- Modelled from the spec: indexed field access of a raw row handle
(`Row::field_at`), yielding nothing when the index is out of range. -/
def fieldAt (r : Row) (i : Nat) : Option Field :=
  r.get? i

/-- Modelled from the spec: a raw table handle of the external row
store: its physical column names in stored order, and its hash buckets,
each a list of rows. -/
structure RawTable where
  columns : List ByteStr
  buckets : List (List Row)
  deriving DecidableEq, Repr

/-- Modelled from the spec: the bucket count supplied by the row store. -/
def RawTable.bucketCount (t : RawTable) : Nat :=
  t.buckets.length

/-- Modelled from the spec: access to a specific bucket's row sequence
(`Table::bucket_at`), nothing when the index is out of range. -/
def RawTable.bucketAt (t : RawTable) (i : Nat) : Option (List Row) :=
  t.buckets.get? i

/-- Modelled from the spec: the unconstrained full-row sequence
(`Table::row_iter`), iterating the buckets in order. -/
def RawTable.allRows (t : RawTable) : List Row :=
  t.buckets.flatten

/-- Modelled from the spec: try-convert of a raw field as a 32-bit
integer (`Field::into_opt_integer`). -/
def Field.intoOptInteger : Field → Option Int
  | .integer i => some i
  | _ => none

/-- Modelled from the spec: try-convert as a float (`into_opt_float`). -/
def Field.intoOptFloat : Field → Option Nat
  | .float b => some b
  | _ => none

/-- Modelled from the spec: try-convert as text (`into_opt_text`). -/
def Field.intoOptText : Field → Option ByteStr
  | .text s => some s
  | _ => none

/-- Modelled from the spec: try-convert as a boolean (`into_opt_boolean`). -/
def Field.intoOptBoolean : Field → Option Bool
  | .boolean b => some b
  | _ => none

/-- Modelled from the spec: try-convert as a 64-bit integer (`into_opt_big_int`). -/
def Field.intoOptBigInt : Field → Option Int
  | .bigInt i => some i
  | _ => none

/-- Modelled from the spec: try-convert as a variable-length string
(`into_opt_varchar`). -/
def Field.intoOptVarchar : Field → Option ByteStr
  | .varchar s => some s
  | _ => none

/-! ## The declarative schema (`build.rs`: `Spec`, `TableSpec`, `ColumnSpec`) -/

/-- `ValueType` of `build.rs`. -/
inductive ValueType where
  | nothing
  | integer
  | float
  | text
  | boolean
  | bigInt
  | varchar
  deriving DecidableEq, Repr

/-- `ColumnSpec` of `build.rs`: declared name, value type, nullability. -/
structure ColumnSpec where
  name : ByteStr
  ty : ValueType
  nullable : Bool
  deriving DecidableEq, Repr

/-- The declared name of column number `c` (the `#cn` literal of the
generated code); columns are numbered in declared order, exactly like
the variants of the generated column enum. -/
def nameAt (decls : List ColumnSpec) (c : Nat) : ByteStr :=
  ((decls.get? c).map ColumnSpec.name).getD []

/-- The declared value type of column number `c`. -/
def tyAt (decls : List ColumnSpec) (c : Nat) : ValueType :=
  ((decls.get? c).map ColumnSpec.ty).getD .nothing

/-- The declared nullability of column number `c`. -/
def nullableAt (decls : List ColumnSpec) (c : Nat) : Bool :=
  ((decls.get? c).map ColumnSpec.nullable).getD false

/-! ## The generated column resolver (`TypedTable::new` in `build.rs`)

The generated constructor matches each physical column name against the
byte-string literals of the declared columns (the `#cmatch` arms, in
declared order) and, on a match, inserts `(column, physical index)`
into a `BTreeMap`, where a later insert for the same column replaces
the earlier one. -/

/-- The `#cmatch` arms of the generated `new`: the first declared
column whose name is byte-equal to the physical name, if any. -/
def matchKey (decls : List ColumnSpec) (name : ByteStr) : Option Nat :=
  decls.findIdx? (fun c => c.name == name)

/-- One iteration of the resolver loop: `col.insert(key, i)` on the
map, modelled as a function update (the `BTreeMap` replaces the value
on an existing key). -/
def colMapStep (decls : List ColumnSpec) (m : Nat → Option Nat)
    (p : Nat × ByteStr) : Nat → Option Nat :=
  match matchKey decls p.2 with
  | some k => fun c => if c = k then some p.1 else m c
  | none => m

/-- The resolved map of `TypedTable::new`: fold of the insert loop over
the physical columns with their indices (`column_iter().enumerate()`),
starting from the empty map.  `colMap decls phys c` is the physical
index recorded for declared column `c` (`TypedTable::get_col`). -/
def colMap (decls : List ColumnSpec) (phys : List ByteStr) : Nat → Option Nat :=
  (phys.enum).foldl (colMapStep decls) (fun _ => none)

/-- The physical index of the last physical column whose name matches
declared column `c`: the first match in the reversed column list. -/
def lastMatchIdx (decls : List ColumnSpec) (phys : List ByteStr) (c : Nat) : Option Nat :=
  ((phys.enum.reverse).find? (fun p => matchKey decls p.2 == some c)).map Prod.fst

theorem colMap_foldl_eq (decls : List ColumnSpec) (c : Nat) :
    ∀ (l : List (Nat × ByteStr)) (m : Nat → Option Nat),
      (l.foldl (colMapStep decls) m) c
        = ((l.reverse.find? (fun p => matchKey decls p.2 == some c)).elim (m c)
            (fun p => some p.1)) := by
  intro l
  induction l with
  | nil => intro m; simp
  | cons a l ih =>
    intro m
    rw [List.foldl_cons, ih, List.reverse_cons, List.find?_append]
    cases hfind : l.reverse.find? (fun p => matchKey decls p.2 == some c) with
    | some x => simp [hfind, Option.or]
    | none =>
      simp only [hfind, Option.none_or]
      unfold colMapStep
      cases hm : matchKey decls a.2 with
      | none => simp [List.find?, hm]
      | some k =>
        by_cases hk : c = k
        · subst hk
          simp [List.find?, hm]
        · have hk' : (k == c) = false := by
            simp only [beq_eq_false_iff_ne, ne_eq]
            exact fun h => hk h.symm
          simp [List.find?, hm, hk, hk']

/-- `get_col` returns the physical index of the *last* physical column
whose name matches the declared column: each later duplicate overwrote
the earlier entry in the `BTreeMap`. -/
theorem colMap_eq_lastMatchIdx (decls : List ColumnSpec) (phys : List ByteStr) (c : Nat) :
    colMap decls phys c = lastMatchIdx decls phys c := by
  rw [colMap, lastMatchIdx, colMap_foldl_eq]
  cases h : (phys.enum.reverse).find? (fun p => matchKey decls p.2 == some c) <;> simp [h]

/-! ## Keyed bucket lookup (`key_iter` in `build.rs`, `TypedRow::get` in `src/lib.rs`) -/

/-- The value of the Rust cast `key as usize` for an `i32` key on the
64-bit targets the crate is built for: sign extension to 64 bits, i.e.
reduction of the signed value modulo 2^64. -/
def usizeOfI32 (key : Int) : Nat :=
  (key % (2 ^ 64 : Int)).toNat

/-- The unsigned 32-bit bit-reinterpretation of an `i32` key, as
computed by the hand-written helpers (`u32::from_ne_bytes(id.to_ne_bytes())`
in `TypedDatabase::get_icon_path` and friends). -/
def u32OfI32 (key : Int) : Nat :=
  (key % (2 ^ 32 : Int)).toNat

/-- The bucket index selected by the generated `key_iter` and by
`TypedRow::get`: `key as usize % bucket_count`. -/
def keyIterBucketIdx (key : Int) (n : Nat) : Nat :=
  usizeOfI32 key % n

/-- The bucket index the hand-written helpers select: the u32
bit-reinterpretation of the key, reduced modulo the bucket count
(`bucket_for_hash` is modelled from the spec: bucket selected by
hash mod bucket_count). -/
def u32BucketIdx (key : Int) (n : Nat) : Nat :=
  u32OfI32 key % n

/-- The generated `key_iter`: select the bucket at
`key as usize % bucket_count`, unwrap it, and filter its rows to those
whose field 0 equals `Field::Integer(key)`.  `none` models a panic:
the remainder by zero when `bucket_count == 0`, or the `.unwrap()` on
a missing bucket.  (The final `.map(TypedRow::new)` of the source only
wraps each row with a table back-reference and is dropped here.) -/
def keyIter (t : RawTable) (key : Int) : Option (List Row) :=
  if t.bucketCount = 0 then
    none
  else
    match t.bucketAt (keyIterBucketIdx key t.bucketCount) with
    | none => none
    | some b => some (b.filter (fun r => fieldAt r 0 == some (Field.integer key)))

/-- `TypedRow::get` (`src/lib.rs`): hash the `index_key`, and scan the
bucket (if present) for the first row whose field at `id_col` converts
to the integer `key`.  The outer `none` models the panic of the
remainder by zero when `bucket_count == 0`. -/
def typedRowGet (t : RawTable) (indexKey key : Int) (idCol : Nat) : Option (Option Row) :=
  if t.bucketCount = 0 then
    none
  else
    some (match t.bucketAt (keyIterBucketIdx indexKey t.bucketCount) with
      | some b => b.find? (fun r => (fieldAt r idCol).bind Field.intoOptInteger == some key)
      | none => none)

/-- The integer primary key of a row, when its first field is an
integer field. -/
def rowKeyOf (r : Row) : Option Int :=
  match fieldAt r 0 with
  | some (Field.integer k) => some k
  | _ => none

/-- The multiset of integer primary keys of a table, in row order. -/
def keysOf (t : RawTable) : List Int :=
  t.allRows.filterMap rowKeyOf

/-- A well-formed store places every row whose first field is the
integer `k` into bucket `u32OfI32 k % bucket_count` (spec glossary:
a bucket is "a physical partition of a table's rows, selected by
hash(key) mod bucket_count"). -/
def wellBucketed (t : RawTable) : Bool :=
  t.buckets.enum.all (fun p =>
    p.2.all (fun r =>
      match rowKeyOf r with
      | some k => p.1 == u32BucketIdx k t.bucketCount
      | none => true))

/-- Some row of the table has the integer `key` as its first field. -/
def keyPresent (t : RawTable) (key : Int) : Bool :=
  t.allRows.any (fun r => fieldAt r 0 == some (Field.integer key))

/-! ## Claims C1, C3, C10 -/

theorem bucketIdx_agree_of_nonneg (key : Int) (h0 : 0 ≤ key) (hlt : key < 2 ^ 31) (n : Nat) :
    keyIterBucketIdx key n = u32BucketIdx key n := by
  have h1 : key % (2 ^ 64 : Int) = key % (2 ^ 32 : Int) % (2 ^ 64 : Int) := by
    omega
  rw [keyIterBucketIdx, u32BucketIdx, usizeOfI32, u32OfI32, h1]
  have h2 : (0 : Int) ≤ key % (2 ^ 32 : Int) := Int.emod_nonneg key (by norm_num)
  have h3 : key % (2 ^ 32 : Int) < (2 ^ 64 : Int) := by
    have := Int.emod_lt_of_pos key (show (0 : Int) < 2 ^ 32 by norm_num)
    omega
  rw [Int.emod_eq_of_lt h2 h3]

/-- C1: the claim states that keyed lookup (generated `key_iter`,
`TypedRow::get`) reinterprets the signed key's bits as an unsigned
32-bit hash, so that for negative keys the selected bucket equals the
one the hand-written helpers compute from the u32 bit-reinterpretation.
The code instead computes `key as usize`, which on the 64-bit targets
sign-extends: at key `-1` with 7 buckets the generated lookup selects
bucket `(2^64 - 1) % 7 = 1` while the u32 bit-reinterpretation used by
the hand-written helpers selects bucket `(2^32 - 1) % 7 = 3`.  This
theorem evaluates both bucket selections at that failing input (a
non-negative key like `1` still agrees: the divergence is exactly the
negative keys). -/
theorem bucket_index_sign_extension_divergence :
    keyIterBucketIdx (-1) 7 = 1 ∧ u32BucketIdx (-1) 7 = 3 ∧
      keyIterBucketIdx (-1) 7 ≠ u32BucketIdx (-1) 7 ∧
      keyIterBucketIdx 1 7 = u32BucketIdx 1 7 := by
  exact ⟨by decide, by decide, by decide, by decide⟩

/-- C3 (counterexample): with a single declared column named "id"
(bytes `[105, 100]`) and a physical table whose columns are "id", "id",
the resolver records physical index 1 (the second, later occurrence),
not index 0 as the claim states. -/
theorem colMap_first_occurrence_false :
    colMap [⟨[105, 100], .integer, false⟩] [[105, 100], [105, 100]] 0 ≠ some 0 ∧
      colMap [⟨[105, 100], .integer, false⟩] [[105, 100], [105, 100]] 0 = some 1 := by
  exact ⟨by decide, by decide⟩

/-- C3 (amended): when two or more physical columns have names
byte-equal to the same declared column name, the resolver records the
physical index of the *last* such occurrence (each later duplicate
overwrites the earlier entry); it does not keep the first. -/
theorem colMap_records_last_duplicate (decls : List ColumnSpec) (phys : List ByteStr) (c : Nat) :
    colMap decls phys c = lastMatchIdx decls phys c :=
  colMap_eq_lastMatchIdx decls phys c

theorem keyIter_eq_filter_of_pos (t : RawTable) (key : Int) (hn : 0 < t.bucketCount) :
    ∃ b, t.bucketAt (keyIterBucketIdx key t.bucketCount) = some b ∧
      keyIter t key = some (b.filter (fun r => fieldAt r 0 == some (Field.integer key))) := by
  have hlt : keyIterBucketIdx key t.bucketCount < t.bucketCount :=
    Nat.mod_lt _ hn
  have hsome : ∃ b, t.bucketAt (keyIterBucketIdx key t.bucketCount) = some b := by
    rw [RawTable.bucketAt]
    exact ⟨_, List.get?_eq_get hlt⟩
  obtain ⟨b, hb⟩ := hsome
  refine ⟨b, hb, ?_⟩
  rw [keyIter, if_neg (Nat.pos_iff_ne_zero.mp hn), hb]

/-- C10: for every table with a positive bucket count and every key,
the bucket index computed by the generated `key_iter`
(`key as usize % bucket_count`) is strictly less than the bucket count,
and `key_iter` never panics (the internal `bucket_at(..).unwrap()`
succeeds); with zero buckets, `key_iter` panics on the remainder by
zero (modelled as `none`) instead of returning an empty sequence. -/
theorem keyIter_bucket_index_safe (t : RawTable) (key : Int) :
    (0 < t.bucketCount →
      keyIterBucketIdx key t.bucketCount < t.bucketCount ∧ keyIter t key ≠ none) ∧
      (t.bucketCount = 0 → keyIter t key = none) := by
  constructor
  · intro hn
    obtain ⟨b, _, hk⟩ := keyIter_eq_filter_of_pos t key hn
    exact ⟨Nat.mod_lt _ hn, by rw [hk]; exact Option.some_ne_none _⟩
  · intro h0
    rw [keyIter, if_pos h0]

/-- Witness for C10: a concrete one-bucket table is panic-free with an
in-range bucket index, and a concrete zero-bucket table panics. -/
theorem keyIter_bucket_index_safe_witness :
    (0 < (RawTable.mk [] [[]]).bucketCount ∧
        keyIterBucketIdx 5 (RawTable.mk [] [[]]).bucketCount < (RawTable.mk [] [[]]).bucketCount ∧
        keyIter (RawTable.mk [] [[]]) 5 ≠ none) ∧
      ((RawTable.mk [] []).bucketCount = 0 ∧ keyIter (RawTable.mk [] []) 5 = none) :=
  ⟨⟨by decide, (keyIter_bucket_index_safe (RawTable.mk [] [[]]) 5).1 (by decide)⟩,
    ⟨by decide, (keyIter_bucket_index_safe (RawTable.mk [] []) 5).2 (by decide)⟩⟩

/-! ## Field extraction and the generated accessors (`build.rs` `#exlist`)

The generated accessor for a nullable column is
`get_col(..).map(|i| row.field_at(i).and_then(map_fn))` with a logged
warning and `None` when the column is unresolved; for a non-nullable
column it is `get_col(..).expect(..)`, `field_at(..).expect(..)`,
`map_fn(value).unwrap_or_else(default + warning)`. -/

/-- Extracted logical values (the accessor return types; both text
kinds extract to a byte-string view). -/
inductive Value where
  | vunit
  | vint (i : Int)
  | vfloat (bits : Nat)
  | vtext (s : ByteStr)
  | vbool (b : Bool)
  | vbigint (i : Int)
  deriving DecidableEq, Repr

/-- The per-type conversion (`#map_fn`) the binding compiler selects:
`field_into_nothing` always succeeds with unit; all other kinds use the
kind-exact try-convert of the raw field. -/
def extract : ValueType → Field → Option Value
  | .nothing, _ => some .vunit
  | .integer, f => f.intoOptInteger.map .vint
  | .float, f => f.intoOptFloat.map .vfloat
  | .text, f => f.intoOptText.map .vtext
  | .boolean, f => f.intoOptBoolean.map .vbool
  | .bigInt, f => f.intoOptBigInt.map .vbigint
  | .varchar, f => f.intoOptVarchar.map .vtext

/-- The type-appropriate default of the non-nullable accessor:
`Default::default()` (numeric zero, `false`) and `EMPTY_L1_STR` for the
text kinds. -/
def defaultValue : ValueType → Value
  | .nothing => .vunit
  | .integer => .vint 0
  | .float => .vfloat 0
  | .text => .vtext []
  | .boolean => .vbool false
  | .bigInt => .vbigint 0
  | .varchar => .vtext []

/-- The two diagnostics the generated accessors can log:
`log::warn!("Missing column {cn} in {t}")` for an unresolved column,
and `log::warn!("Missing non-nullable field {cn} in {t} in row {pk}")`
for a null non-nullable field. -/
inductive Warning where
  | missingColumn (column table : ByteStr)
  | missingNonNullableField (column table : ByteStr) (pk : Field)
  deriving DecidableEq, Repr

/-- The generated accessor of a non-nullable declared column `c`:
panics (`none`) when the column is unresolved ("Missing column ... ")
or the field is absent ("defined field missing, FDB corrupt");
otherwise converts the field, and on a null/ill-kinded field
substitutes the type default and logs one warning citing the column
name, the table name and the row's primary key
(`row.field_at(0).unwrap_or(Field::Nothing)`). -/
def nonNullAccess (decls : List ColumnSpec) (phys : List ByteStr) (tname : ByteStr)
    (c : Nat) (r : Row) : Option (Value × List Warning) :=
  match colMap decls phys c with
  | none => none
  | some index =>
    match fieldAt r index with
    | none => none
    | some value =>
      match extract (tyAt decls c) value with
      | some v => some (v, [])
      | none =>
        some (defaultValue (tyAt decls c),
          [Warning.missingNonNullableField (nameAt decls c) tname
            ((fieldAt r 0).getD Field.nothing)])

/-- The generated accessor of a nullable declared column `c`: when the
column is resolved, `field_at(index).and_then(map_fn)`; when it is
unresolved, `None` with one logged warning.  The function is total: the
source accessor contains no panicking operation. -/
def nullableAccess (decls : List ColumnSpec) (phys : List ByteStr) (tname : ByteStr)
    (c : Nat) (r : Row) : Option Value × List Warning :=
  match colMap decls phys c with
  | some index => ((fieldAt r index).bind (extract (tyAt decls c)), [])
  | none => (none, [Warning.missingColumn (nameAt decls c) tname])

/-! ## The generated `serde::Serialize` impl (`build.rs` rows)

The serializer iterates `&self.table.col`, the resolved
`BTreeMap<Column, usize>`, in ascending key order (the derived `Ord` of
the generated column enum orders variants in declared-column order),
and for each resolved pair serializes the field name and the value
`map_fn(field)` — an `Option`, so a null field serializes as a null,
with no default substitution and no warning.  Unresolved columns are
simply not in the map and are skipped. -/

/-- The (column, physical index) pairs of the resolved `BTreeMap`, in
iteration order: ascending column number.  The map's keys are exactly
the resolved declared columns (every key inserted by the resolver is a
`findIdx?` result, hence below `decls.length`, and its final value is
`colMap`). -/
def colPairs (decls : List ColumnSpec) (phys : List ByteStr) : List (Nat × Nat) :=
  (List.range decls.length).filterMap (fun c => (colMap decls phys c).map (fun i => (c, i)))

/-- The serializer loop over the resolved map entries: for each pair,
`row.field_at(index)` (panicking — `none` — when the field is absent:
"Missing known column"), then one `serialize_field(#cn, &map_fn(value))`
emitting the declared name with the converted `Option` value. -/
def serFields (decls : List ColumnSpec) (r : Row) :
    List (Nat × Nat) → Option (List (ByteStr × Option Value))
  | [] => some []
  | p :: t =>
    match fieldAt r p.2 with
    | none => none
    | some f =>
      (serFields decls r t).map
        (fun rest => (nameAt decls p.1, extract (tyAt decls p.1) f) :: rest)

/-- Row serialization: the serializer loop over the resolved map in
iteration order.  The result is the ordered field list of the emitted
structured record; a `none` value is an emitted null. -/
def serializeRow (decls : List ColumnSpec) (phys : List ByteStr) (r : Row) :
    Option (List (ByteStr × Option Value)) :=
  serFields decls r (colPairs decls phys)

/-- All resolved physical indices of the table are within the row's
field count (true of any well-formed store, where every row has one
field per physical column). -/
def inRange (r : Row) (ps : List (Nat × Nat)) : Prop :=
  ∀ p ∈ ps, p.2 < r.length

instance (r : Row) (ps : List (Nat × Nat)) : Decidable (inRange r ps) :=
  inferInstanceAs (Decidable (∀ p ∈ ps, p.2 < r.length))

theorem serFields_eq_of_inRange (decls : List ColumnSpec) (r : Row) :
    ∀ ps : List (Nat × Nat), inRange r ps →
      serFields decls r ps
        = some (ps.map (fun p =>
            (nameAt decls p.1, extract (tyAt decls p.1) ((fieldAt r p.2).getD Field.nothing)))) := by
  intro ps
  induction ps with
  | nil => intro _; rfl
  | cons p t ih =>
    intro h
    have hp : p.2 < r.length := h p (List.mem_cons_self p t)
    have hf : fieldAt r p.2 = some (r.get ⟨p.2, hp⟩) := List.get?_eq_get hp
    have ht : inRange r t := fun q hq => h q (List.mem_cons_of_mem p hq)
    rw [serFields, hf, ih ht]
    simp [hf]

theorem matchKey_lt (decls : List ColumnSpec) (name : ByteStr) (c : Nat)
    (h : matchKey decls name = some c) : c < decls.length :=
  (List.findIdx?_eq_some_iff_findIdx_eq.mp h).1

theorem colMap_isSome_iff (decls : List ColumnSpec) (phys : List ByteStr) (c : Nat) :
    (colMap decls phys c).isSome = true ↔ ∃ name ∈ phys, matchKey decls name = some c := by
  rw [colMap_eq_lastMatchIdx, lastMatchIdx, Option.isSome_map']
  rw [List.find?_isSome]
  constructor
  · rintro ⟨p, hp, hq⟩
    refine ⟨p.2, ?_, by simpa using hq⟩
    rw [List.mem_reverse] at hp
    exact List.getElem?_mem (List.mem_enum_iff_getElem?.mp hp)
  · rintro ⟨name, hname, hq⟩
    obtain ⟨i, hi⟩ := List.getElem?_of_mem hname
    refine ⟨(i, name), ?_, by simpa using hq⟩
    rw [List.mem_reverse]
    exact List.mem_enum_iff_getElem?.mpr hi

theorem colMap_lt (decls : List ColumnSpec) (phys : List ByteStr) (c i : Nat)
    (h : colMap decls phys c = some i) : c < decls.length := by
  have hs : (colMap decls phys c).isSome = true := by rw [h]; rfl
  obtain ⟨name, _, hm⟩ := (colMap_isSome_iff decls phys c).mp hs
  exact matchKey_lt decls name c hm

theorem mem_colPairs_iff (decls : List ColumnSpec) (phys : List ByteStr) (c i : Nat) :
    (c, i) ∈ colPairs decls phys ↔ colMap decls phys c = some i := by
  rw [colPairs, List.mem_filterMap]
  constructor
  · rintro ⟨a, _, ha⟩
    cases hm : colMap decls phys a with
    | none => rw [hm] at ha; exact absurd ha (by simp)
    | some j =>
      rw [hm] at ha
      simp only [Option.map_some', Option.some.injEq] at ha
      obtain ⟨rfl, rfl⟩ := Prod.ext_iff.mp ha
      exact hm
  · intro hm
    refine ⟨c, List.mem_range.mpr (colMap_lt decls phys c i hm), ?_⟩
    rw [hm]
    rfl

/-- The declared names the serializer emits, in emission order. -/
def emittedNames (decls : List ColumnSpec) (phys : List ByteStr) : List ByteStr :=
  (colPairs decls phys).map (fun p => nameAt decls p.1)

theorem filterMap_pair_names (decls : List ColumnSpec) (g : Nat → Option Nat) :
    ∀ l : List Nat,
      ((l.filterMap (fun c => (g c).map (fun i => (c, i)))).map (fun p => nameAt decls p.1))
        = (l.filter (fun c => (g c).isSome)).map (nameAt decls) := by
  intro l
  induction l with
  | nil => rfl
  | cons a t ih =>
    cases hg : g a with
    | none => simp [List.filterMap_cons, List.filter_cons, hg, ih]
    | some i => simp [List.filterMap_cons, List.filter_cons, hg, ih]

theorem emittedNames_eq_filter (decls : List ColumnSpec) (phys : List ByteStr) :
    emittedNames decls phys
      = ((List.range decls.length).filter
          (fun c => (colMap decls phys c).isSome)).map (nameAt decls) := by
  rw [emittedNames, colPairs, filterMap_pair_names]

theorem range_map_nameAt :
    ∀ decls : List ColumnSpec,
      (List.range decls.length).map (nameAt decls) = decls.map ColumnSpec.name := by
  intro decls
  induction decls with
  | nil => rfl
  | cons d t ih =>
    rw [List.length_cons, List.range_succ_eq_map, List.map_cons, List.map_map]
    have h2 : (List.range t.length).map ((nameAt (d :: t)) ∘ Nat.succ)
        = (List.range t.length).map (nameAt t) := by
      apply List.map_congr_left
      intro a _
      rfl
    rw [h2, ih, List.map_cons]
    rfl

theorem extract_nothing_field (ty : ValueType) (hty : ty ≠ ValueType.nothing) :
    extract ty Field.nothing = none := by
  cases ty <;> first | exact absurd rfl hty | rfl

/-- Soft degradation of serialization: no panic, a null field of a
typed column is emitted as a serialized null (not as the accessor's
default, and with no warning — the serializer logs nothing), and only
resolved declared columns contribute fields (unresolved columns are
omitted rather than failing). -/
def serializeSoft (decls : List ColumnSpec) (phys : List ByteStr) (r : Row) : Prop :=
  serializeRow decls phys r ≠ none
    ∧ (∀ p ∈ colPairs decls phys, nullableAt decls p.1 = false →
        tyAt decls p.1 ≠ ValueType.nothing → fieldAt r p.2 = some Field.nothing →
        (nameAt decls p.1, (none : Option Value)) ∈ (serializeRow decls phys r).getD [])
    ∧ (∀ nm v, (nm, v) ∈ (serializeRow decls phys r).getD [] →
        ∃ p ∈ colPairs decls phys, nm = nameAt decls p.1)

/-- C4 (amended): serialization of a row never hard-fails because a
non-nullable column's field is null or because the column is
unresolved; but it does not apply the accessor's degradation policy:
a null field is emitted as a serialized null with no warning (not as
the type-appropriate default), and an unresolved column is omitted
from the output entirely. -/
theorem serialize_soft_degradation (decls : List ColumnSpec) (phys : List ByteStr) (r : Row)
    (h : inRange r (colPairs decls phys)) : serializeSoft decls phys r := by
  have hser : serializeRow decls phys r
      = some ((colPairs decls phys).map (fun p =>
          (nameAt decls p.1, extract (tyAt decls p.1) ((fieldAt r p.2).getD Field.nothing)))) :=
    serFields_eq_of_inRange decls r (colPairs decls phys) h
  refine ⟨by rw [hser]; exact Option.some_ne_none _, ?_, ?_⟩
  · intro p hp hnn hty hnull
    rw [hser, Option.getD_some]
    refine List.mem_map.mpr ⟨p, hp, ?_⟩
    show (nameAt decls p.1, extract (tyAt decls p.1) ((fieldAt r p.2).getD Field.nothing))
      = (nameAt decls p.1, none)
    rw [hnull, Option.getD_some, extract_nothing_field (tyAt decls p.1) hty]
  · intro nm v hmem
    rw [hser, Option.getD_some] at hmem
    obtain ⟨p, hp, hpe⟩ := List.mem_map.mp hmem
    exact ⟨p, hp, congrArg Prod.fst hpe.symm⟩

/-- C4 (counterexample): a table with two non-nullable Integer columns
"id" and "val" and the row `(1, null)` serializes the null "val" field
as a serialized null, not as the type-appropriate default `0` claimed
by the spec (and the serializer emits no warning at all). -/
theorem serialize_null_not_default_cex :
    serializeRow [⟨[105, 100], .integer, false⟩, ⟨[118, 97, 108], .integer, false⟩]
        [[105, 100], [118, 97, 108]] [Field.integer 1, Field.nothing]
      = some [([105, 100], some (Value.vint 1)), ([118, 97, 108], none)] ∧
      ([118, 97, 108], (some (Value.vint 0) : Option Value)) ∉
        (serializeRow [⟨[105, 100], .integer, false⟩, ⟨[118, 97, 108], .integer, false⟩]
          [[105, 100], [118, 97, 108]] [Field.integer 1, Field.nothing]).getD [] := by
  exact ⟨by decide, by decide⟩

/-- Witness for the amended C4 theorem at the same concrete table. -/
theorem serialize_soft_degradation_witness :
    inRange [Field.integer 1, Field.nothing]
        (colPairs [⟨[105, 100], .integer, false⟩, ⟨[118, 97, 108], .integer, false⟩]
          [[105, 100], [118, 97, 108]]) ∧
      serializeSoft [⟨[105, 100], .integer, false⟩, ⟨[118, 97, 108], .integer, false⟩]
        [[105, 100], [118, 97, 108]] [Field.integer 1, Field.nothing] :=
  ⟨by decide, serialize_soft_degradation _ _ _ (by decide)⟩

/-- Order-preservation of serialization: the emitted field names are
exactly the resolved declared columns in declared order — a sublist of
the declared names, the full declared name list when every declared
column resolves, and invariant under permutation of the physical
columns; no undeclared physical column ever contributes a field. -/
def serializeOrdered (decls : List ColumnSpec) (phys : List ByteStr) (r : Row) : Prop :=
  serializeRow decls phys r ≠ none
    ∧ ((serializeRow decls phys r).getD []).map Prod.fst = emittedNames decls phys
    ∧ List.Sublist (emittedNames decls phys) (decls.map ColumnSpec.name)
    ∧ ((∀ c ∈ List.range decls.length, (colMap decls phys c).isSome) →
        emittedNames decls phys = decls.map ColumnSpec.name)
    ∧ (∀ phys', phys'.Perm phys → emittedNames decls phys' = emittedNames decls phys)

theorem colMap_isSome_perm (decls : List ColumnSpec) (phys phys' : List ByteStr)
    (hperm : phys'.Perm phys) (c : Nat) :
    (colMap decls phys' c).isSome = (colMap decls phys c).isSome := by
  have hbool : ∀ (x y : Bool), (x = true ↔ y = true) → x = y := by decide
  apply hbool
  rw [colMap_isSome_iff, colMap_isSome_iff]
  constructor
  · rintro ⟨name, hmem, hm⟩
    exact ⟨name, hperm.mem_iff.mp hmem, hm⟩
  · rintro ⟨name, hmem, hm⟩
    exact ⟨name, hperm.mem_iff.mpr hmem, hm⟩

/-- C5: for every row, the serialized field list is in declared column
order regardless of physical column order, and contains no undeclared
column: the emitted names are a sublist of the declared names (the full
declared list when every declared column is resolved), and are
unchanged under any permutation of the physical columns. -/
theorem serialize_declared_order (decls : List ColumnSpec) (phys : List ByteStr) (r : Row)
    (h : inRange r (colPairs decls phys)) : serializeOrdered decls phys r := by
  have hser : serializeRow decls phys r
      = some ((colPairs decls phys).map (fun p =>
          (nameAt decls p.1, extract (tyAt decls p.1) ((fieldAt r p.2).getD Field.nothing)))) :=
    serFields_eq_of_inRange decls r (colPairs decls phys) h
  refine ⟨by rw [hser]; exact Option.some_ne_none _, ?_, ?_, ?_, ?_⟩
  · rw [hser, Option.getD_some, List.map_map]
    rfl
  · rw [emittedNames_eq_filter, ← range_map_nameAt decls]
    exact List.Sublist.map (nameAt decls) (List.filter_sublist _)
  · intro hall
    rw [emittedNames_eq_filter, List.filter_eq_self.mpr hall, range_map_nameAt]
  · intro phys' hperm
    rw [emittedNames_eq_filter, emittedNames_eq_filter]
    congr 1
    apply List.filter_congr
    intro c _
    exact colMap_isSome_perm decls phys phys' hperm c

/-- Witness for the C5 theorem: a two-column schema over a physical
table with the declared columns reversed plus an extra unknown column. -/
theorem serialize_declared_order_witness :
    inRange [Field.text [120], Field.integer 4, Field.boolean true]
        (colPairs [⟨[105, 100], .integer, false⟩, ⟨[110, 109], .text, true⟩]
          [[110, 109], [105, 100], [122, 122]]) ∧
      serializeOrdered [⟨[105, 100], .integer, false⟩, ⟨[110, 109], .text, true⟩]
        [[110, 109], [105, 100], [122, 122]] [Field.text [120], Field.integer 4, Field.boolean true] :=
  ⟨by decide, serialize_declared_order _ _ _ (by decide)⟩

theorem serialize_null_mem (decls : List ColumnSpec) (phys : List ByteStr) (r : Row)
    (c i : Nat) (hcol : colMap decls phys c = some i)
    (hnull : fieldAt r i = some Field.nothing) (hty : tyAt decls c ≠ ValueType.nothing)
    (hr : inRange r (colPairs decls phys)) :
    (nameAt decls c, (none : Option Value)) ∈ (serializeRow decls phys r).getD [] ∧
      serializeRow decls phys r ≠ none := by
  have hser : serializeRow decls phys r
      = some ((colPairs decls phys).map (fun p =>
          (nameAt decls p.1, extract (tyAt decls p.1) ((fieldAt r p.2).getD Field.nothing)))) :=
    serFields_eq_of_inRange decls r (colPairs decls phys) hr
  constructor
  · rw [hser, Option.getD_some]
    refine List.mem_map.mpr ⟨(c, i), (mem_colPairs_iff decls phys c i).mpr hcol, ?_⟩
    show (nameAt decls c, extract (tyAt decls c) ((fieldAt r i).getD Field.nothing))
      = (nameAt decls c, none)
    rw [hnull, Option.getD_some, extract_nothing_field (tyAt decls c) hty]
  · rw [hser]
    exact Option.some_ne_none _

/-- C6 (counterexample): a table "M" with non-nullable Integer columns
"k" and "n" and row `(7, null)`: the accessor for "n" does return `0`
with exactly one warning, but serialization emits a null for "n", not
the claimed `0` (and logs nothing). -/
theorem nonnull_null_serializes_null_cex :
    nonNullAccess [⟨[107], .integer, false⟩, ⟨[110], .integer, false⟩] [[107], [110]] [77] 1
        [Field.integer 7, Field.nothing]
      = some (Value.vint 0,
          [Warning.missingNonNullableField [110] [77] (Field.integer 7)]) ∧
      ([110], (some (Value.vint 0) : Option Value)) ∉
        (serializeRow [⟨[107], .integer, false⟩, ⟨[110], .integer, false⟩] [[107], [110]]
          [Field.integer 7, Field.nothing]).getD [] ∧
      ([110], (none : Option Value)) ∈
        (serializeRow [⟨[107], .integer, false⟩, ⟨[110], .integer, false⟩] [[107], [110]]
          [Field.integer 7, Field.nothing]).getD [] := by
  exact ⟨by decide, by decide, by decide⟩

/-- C6 (amended): reading a non-nullable Integer32 column whose
physical field is null returns `0` from the accessor without a fatal
error, emitting exactly one diagnostic warning citing the row's primary
key, the column name and the table name; serialization of the same row
does not fail either, but emits a serialized null for that field (the
serializer bypasses the accessor default and logs no warning). -/
theorem nonnull_null_integer_policy (decls : List ColumnSpec) (phys : List ByteStr)
    (tname : ByteStr) (c i : Nat) (r : Row)
    (_hnn : nullableAt decls c = false) (hty : tyAt decls c = ValueType.integer)
    (hcol : colMap decls phys c = some i) (hnull : fieldAt r i = some Field.nothing)
    (hr : inRange r (colPairs decls phys)) :
    nonNullAccess decls phys tname c r
        = some (Value.vint 0,
            [Warning.missingNonNullableField (nameAt decls c) tname
              ((fieldAt r 0).getD Field.nothing)]) ∧
      (nameAt decls c, (none : Option Value)) ∈ (serializeRow decls phys r).getD [] ∧
      serializeRow decls phys r ≠ none := by
  have hmem := serialize_null_mem decls phys r c i hcol hnull (by rw [hty]; intro h; cases h) hr
  refine ⟨?_, hmem.1, hmem.2⟩
  rw [nonNullAccess, hcol]
  simp only [hnull, hty]
  rfl

/-- Witness for the amended C6 theorem at a concrete table. -/
theorem nonnull_null_integer_policy_witness :
    nullableAt [⟨[107], .integer, false⟩, ⟨[110], .integer, false⟩] 1 = false ∧
      tyAt [⟨[107], .integer, false⟩, ⟨[110], .integer, false⟩] 1 = ValueType.integer ∧
      colMap [⟨[107], .integer, false⟩, ⟨[110], .integer, false⟩] [[107], [110]] 1 = some 1 ∧
      fieldAt [Field.integer 7, Field.nothing] 1 = some Field.nothing ∧
      inRange [Field.integer 7, Field.nothing]
        (colPairs [⟨[107], .integer, false⟩, ⟨[110], .integer, false⟩] [[107], [110]]) ∧
      nonNullAccess [⟨[107], .integer, false⟩, ⟨[110], .integer, false⟩] [[107], [110]] [77] 1
          [Field.integer 7, Field.nothing]
        = some (Value.vint 0,
            [Warning.missingNonNullableField
              (nameAt [⟨[107], .integer, false⟩, ⟨[110], .integer, false⟩] 1) [77]
              ((fieldAt [Field.integer 7, Field.nothing] 0).getD Field.nothing)]) :=
  ⟨by decide, by decide, by decide, by decide, by decide,
    (nonnull_null_integer_policy _ _ [77] 1 1 _ (by decide) (by decide) (by decide)
      (by decide) (by decide)).1⟩

/-- The declared column `c` has no byte-equal physical column. -/
def unresolvedIn (decls : List ColumnSpec) (phys : List ByteStr) (c : Nat) : Prop :=
  ∀ name ∈ phys, matchKey decls name ≠ some c

instance (decls : List ColumnSpec) (phys : List ByteStr) (c : Nat) :
    Decidable (unresolvedIn decls phys c) :=
  inferInstanceAs (Decidable (∀ name ∈ phys, matchKey decls name ≠ some c))

/-- C7: constructing the table view never fails when a declared column
is missing from the physical table — the generated `new` has no failure
path and simply leaves the column unresolved (`get_col` yields nothing);
the failure is deferred to the first read through the non-nullable
accessor, which panics with the "Missing column ..." expect (modelled
as `none`): fatal to the caller, not to construction. -/
theorem unresolved_nonnull_defers_failure (decls : List ColumnSpec) (phys : List ByteStr)
    (tname : ByteStr) (c : Nat) (r : Row) (h : unresolvedIn decls phys c) :
    colMap decls phys c = none ∧ nonNullAccess decls phys tname c r = none := by
  have hnone : colMap decls phys c = none := by
    cases hm : colMap decls phys c with
    | none => rfl
    | some i =>
      exfalso
      have hs : (colMap decls phys c).isSome = true := by rw [hm]; rfl
      obtain ⟨name, hmem, hk⟩ := (colMap_isSome_iff decls phys c).mp hs
      exact h name hmem hk
  refine ⟨hnone, ?_⟩
  rw [nonNullAccess, hnone]

/-- Witness for the C7 theorem: a declared column "a" over a physical
table whose only column is "b". -/
theorem unresolved_nonnull_defers_failure_witness :
    unresolvedIn [⟨[97], .integer, false⟩] [[98]] 0 ∧
      colMap [⟨[97], .integer, false⟩] [[98]] 0 = none ∧
      nonNullAccess [⟨[97], .integer, false⟩] [[98]] [84] 0 [Field.integer 3] = none :=
  ⟨by decide,
    unresolved_nonnull_defers_failure [⟨[97], .integer, false⟩] [[98]] [84] 0 [Field.integer 3]
      (by decide)⟩

/-- The nullable-accessor policy of the specification's extractor
table: unresolved column yields no value plus one logged diagnostic;
an absent or null field yields no value with no diagnostic; a present
well-kinded field yields the wrapped value.  The accessor is a total
function: the generated nullable accessor contains no panicking
operation. -/
def nullablePolicy (decls : List ColumnSpec) (phys : List ByteStr) (tname : ByteStr)
    (c : Nat) (r : Row) : Prop :=
  (colMap decls phys c = none →
      nullableAccess decls phys tname c r
        = (none, [Warning.missingColumn (nameAt decls c) tname]))
    ∧ (∀ i, colMap decls phys c = some i → fieldAt r i = none →
        nullableAccess decls phys tname c r = (none, []))
    ∧ (∀ i, colMap decls phys c = some i → fieldAt r i = some Field.nothing →
        tyAt decls c ≠ ValueType.nothing →
        nullableAccess decls phys tname c r = (none, []))
    ∧ (∀ i f v, colMap decls phys c = some i → fieldAt r i = some f →
        extract (tyAt decls c) f = some v →
        nullableAccess decls phys tname c r = (some v, []))

/-- C8: the generated accessor of a nullable declared column is total
and never panics: it returns no value when the field is null or absent
and when the column is unresolved in the physical table (with one
logged diagnostic in the unresolved case), and returns the value
wrapped as present when the field is present and well-kinded. -/
theorem nullable_accessor_total_policy (decls : List ColumnSpec) (phys : List ByteStr)
    (tname : ByteStr) (c : Nat) (r : Row) (_hnul : nullableAt decls c = true) :
    nullablePolicy decls phys tname c r := by
  refine ⟨?_, ?_, ?_, ?_⟩
  · intro hnone
    rw [nullableAccess, hnone]
  · intro i hcol habs
    rw [nullableAccess, hcol]
    simp only [habs]
    rfl
  · intro i hcol hnull hty
    rw [nullableAccess, hcol]
    simp only [hnull, Option.some_bind, extract_nothing_field (tyAt decls c) hty]
  · intro i f v hcol hf hex
    rw [nullableAccess, hcol]
    simp only [hf, Option.some_bind, hex]

/-- Witness for the C8 theorem: a nullable Integer column "q",
exercised on the unresolved case. -/
theorem nullable_accessor_total_policy_witness :
    nullableAt [⟨[113], .integer, true⟩] 0 = true ∧
      nullablePolicy [⟨[113], .integer, true⟩] [[122]] [84] 0 [Field.nothing] :=
  ⟨by decide,
    nullable_accessor_total_policy [⟨[113], .integer, true⟩] [[122]] [84] 0 [Field.nothing]
      (by decide)⟩

/-! ## Claim C2: keyed-lookup correctness -/

theorem countP_le_count_filterMap {α β : Type} [DecidableEq β] (p : α → Bool)
    (f : α → Option β) (k : β) (hpf : ∀ a, p a = true → f a = some k) :
    ∀ l : List α, l.countP p ≤ (l.filterMap f).count k := by
  intro l
  induction l with
  | nil => simp
  | cons a t ih =>
    cases hpa : p a with
    | true =>
      rw [List.countP_cons_of_pos p t hpa, List.filterMap_cons, hpf a hpa, List.count_cons]
      simp only [beq_self_eq_true, if_true]
      exact Nat.add_le_add_right ih 1
    | false =>
      rw [List.countP_cons_of_neg p t (by simp [hpa]), List.filterMap_cons]
      cases hfa : f a with
      | none => exact ih
      | some b =>
        rw [List.count_cons]
        exact Nat.le_trans ih (Nat.le_add_right _ _)

theorem bucket_sublist_allRows (t : RawTable) (b : List Row) (hb : b ∈ t.buckets) :
    List.Sublist b t.allRows := by
  obtain ⟨s, u, hsu⟩ := List.append_of_mem hb
  rw [RawTable.allRows, hsu, List.flatten_append, List.flatten_cons]
  exact List.sublist_append_of_sublist_right (List.sublist_append_left b u.flatten)

/-- Lookup correctness of the generated `key_iter`: no panic; exactly
one returned row when the key is present; an empty sequence when it is
absent; and every returned row's first field equals the looked-up key
(so a bucket collision never leaks a row with a different key). -/
def lookupCorrect (t : RawTable) (key : Int) : Prop :=
  keyIter t key ≠ none
    ∧ (keyPresent t key = true → ((keyIter t key).getD []).length = 1)
    ∧ (keyPresent t key = false → keyIter t key = some [])
    ∧ (∀ r ∈ (keyIter t key).getD [], fieldAt r 0 = some (Field.integer key))

/-- C2 (amended): for a table with a positive bucket count whose rows
have unique primary keys and sit in the buckets assigned by the u32
key hash, and for every key whose sign-extended bucket index agrees
with the u32 one (all non-negative keys in particular), keyed lookup
returns exactly one row when the key is present — with first field
equal to the key — and an empty sequence when it is absent; rows with
different keys in the same bucket are never returned together.  (The
agreement hypothesis cannot be dropped: see the counterexample for
negative keys.) -/
theorem key_lookup_correct (t : RawTable) (key : Int) (hn : 0 < t.bucketCount)
    (hwb : wellBucketed t = true) (hu : (keysOf t).Nodup)
    (hmatch : keyIterBucketIdx key t.bucketCount = u32BucketIdx key t.bucketCount) :
    lookupCorrect t key := by
  obtain ⟨b, hb, hk⟩ := keyIter_eq_filter_of_pos t key hn
  have hbmem : b ∈ t.buckets := List.get?_mem hb
  have hsub : List.Sublist b t.allRows := bucket_sublist_allRows t b hbmem
  refine ⟨by rw [hk]; exact Option.some_ne_none _, ?_, ?_, ?_⟩
  · intro hp
    obtain ⟨r0, hr0mem, hr0key⟩ := List.any_eq_true.mp hp
    have hr0eq : fieldAt r0 0 = some (Field.integer key) := by
      exact eq_of_beq hr0key
    obtain ⟨b', hb', hr0b'⟩ := List.mem_flatten.mp hr0mem
    obtain ⟨bi, hbi⟩ := List.getElem?_of_mem hb'
    have henum : (bi, b') ∈ t.buckets.enum := List.mem_enum_iff_getElem?.mpr hbi
    have hrow := List.all_eq_true.mp (List.all_eq_true.mp hwb (bi, b') henum) r0 hr0b'
    have hkeyr0 : rowKeyOf r0 = some key := by
      rw [rowKeyOf, hr0eq]
    simp only [hkeyr0] at hrow
    have hbi_eq : bi = u32BucketIdx key t.bucketCount := by
      exact eq_of_beq hrow
    have hsame : b' = b := by
      have h1 : t.buckets[keyIterBucketIdx key t.bucketCount]? = some b := by
        rw [← List.get?_eq_getElem?]
        exact hb
      rw [hmatch, ← hbi_eq, hbi] at h1
      exact (Option.some.injEq _ _ ▸ h1)
    rw [hk, Option.getD_some]
    apply Nat.le_antisymm
    · rw [← List.countP_eq_length_filter]
      have hstep : b.countP (fun r => fieldAt r 0 == some (Field.integer key))
          ≤ (b.filterMap rowKeyOf).count key := by
        apply countP_le_count_filterMap
        intro a ha
        rw [rowKeyOf, eq_of_beq ha]
      refine Nat.le_trans hstep (Nat.le_trans ((hsub.filterMap rowKeyOf).count_le key) ?_)
      exact (List.nodup_iff_count_le_one.mp hu) key
    · apply List.length_pos_of_mem
      refine List.mem_filter.mpr ⟨?_, by rw [hr0eq]; exact beq_self_eq_true _⟩
      rw [← hsame]
      exact hr0b'
  · intro hnp
    rw [hk]
    congr 1
    rw [List.filter_eq_nil_iff]
    intro r hr
    have hall := List.any_eq_false.mp hnp r (hsub.subset hr)
    exact hall
  · intro r hr
    rw [hk, Option.getD_some] at hr
    exact eq_of_beq (List.mem_filter.mp hr).2

/-- A seven-bucket table holding the single row with key `-1`, placed
(as the store does) in the bucket selected by the u32 hash of the key:
`(2^32 - 1) % 7 = 3`. -/
def tNegKey : RawTable :=
  ⟨[], [[], [], [], [[Field.integer (-1)]], [], [], []]⟩

/-- C2 (counterexample): in a well-bucketed table with unique keys, the
row with key `-1` is present, yet the generated `key_iter` returns the
empty sequence for key `-1` — it inspects bucket
`(2^64 - 1) % 7 = 1` instead of bucket 3, so a present key yields zero
rows, not exactly one as the claim states. -/
theorem key_lookup_misses_negative_cex :
    0 < tNegKey.bucketCount ∧ wellBucketed tNegKey = true ∧ (keysOf tNegKey).Nodup ∧
      keyPresent tNegKey (-1) = true ∧ keyIter tNegKey (-1) = some [] := by
  exact ⟨by decide, by decide, by decide, by decide, by decide⟩

/-- Witness for the amended C2 theorem: a one-bucket table with the
single row of key `5`. -/
theorem key_lookup_correct_witness :
    0 < (RawTable.mk [] [[[Field.integer 5]]]).bucketCount ∧
      wellBucketed (RawTable.mk [] [[[Field.integer 5]]]) = true ∧
      (keysOf (RawTable.mk [] [[[Field.integer 5]]])).Nodup ∧
      keyIterBucketIdx 5 (RawTable.mk [] [[[Field.integer 5]]]).bucketCount
        = u32BucketIdx 5 (RawTable.mk [] [[[Field.integer 5]]]).bucketCount ∧
      lookupCorrect (RawTable.mk [] [[[Field.integer 5]]]) 5 :=
  ⟨by decide, by decide, by decide, by decide,
    key_lookup_correct (RawTable.mk [] [[[Field.integer 5]]]) 5 (by decide) (by decide)
      (by decide) (by decide)⟩

/-! ## Claim C9: the database assembler (`TypedDatabase::new` in `src/lib.rs`) -/

/-- Modelled from the spec: the structural-cast failure of the row
store's table lookup (`assembly_core::buffer::CastError`), an opaque
token distinct from "not found". -/
inductive CastErr where
  | castError
  deriving DecidableEq, Repr

/-- Modelled from the spec: the named raw tables of the row store; the
value is the structural-cast result for that table. -/
abbrev TablesMap := List (String × Except CastErr RawTable)

/-- Modelled from the spec: `Tables::by_name`: exact-name lookup,
`none` when the table is absent, otherwise the cast result. -/
def byName (ts : TablesMap) (n : String) : Option (Except CastErr RawTable) :=
  List.lookup n ts

/-- One field initializer of `TypedDatabase::new`: a mandatory table
uses `T::of(tables).unwrap()?` (the `.unwrap()` panics when the table
is absent), the optional tables use `T::of(tables).transpose()?`
(absence becomes an explicit `None` value the caller must handle). -/
inductive Slot where
  | mand (name : String)
  | opt (name : String)
  deriving DecidableEq, Repr

/-- The table name of a slot (`TypedTable::NAME`). -/
def Slot.nameOf : Slot → String
  | .mand n => n
  | .opt n => n

/-- The fields of `TypedDatabase::new` in their construction order.
`JetPackPadComponent` and `RebuildSections` are the two
`.transpose()?` (optional) fields.  The name strings equal the
generated `NAME` constants; the schema document holding them is not
among the sources, so the spellings here are placeholders derived from
the generated type names — no claim depends on them. -/
def dbSlots : List Slot :=
  [.mand "Activities", .mand "ActivityText", .mand "BehaviorParameter",
   .mand "BehaviorTemplate", .mand "CollectibleComponent", .mand "ComponentsRegistry",
   .mand "CurrencyDenominations", .mand "DeletionRestrictions",
   .mand "DestructibleComponent", .mand "Emotes", .mand "Icons",
   .mand "InventoryComponent", .mand "ItemComponent", .mand "ItemSets",
   .mand "ItemSetSkills", .opt "JetPackPadComponent", .mand "LootMatrix",
   .mand "LootTable", .mand "MissionEmail", .mand "MissionNPCComponent",
   .mand "MissionTasks", .mand "MissionText", .mand "Missions", .mand "NpcIcons",
   .mand "Objects", .mand "ObjectSkills", .mand "PlayerStatistics",
   .mand "Preconditions", .mand "PropertyTemplate", .mand "Rewards",
   .mand "RewardCodes", .mand "RebuildComponent", .opt "RebuildSections",
   .mand "RenderComponent", .mand "SkillBehavior", .mand "SpeedchatMenu",
   .mand "TamingBuildPuzzles", .mand "UGBehaviorSounds",
   .mand "WhatsCoolItemSpotlight", .mand "WhatsCoolNewsAndTips",
   .mand "ZoneLoadingTips", .mand "ZoneTable"]

/-- The names of the mandatory tables of `TypedDatabase`. -/
def mandatoryNamesDb : List String :=
  dbSlots.filterMap (fun s => match s with | .mand n => some n | .opt _ => none)

/-- The resolution of one field initializer: `none` models the
`.unwrap()` panic on a missing mandatory table; `Except.error` is a
structural-cast failure propagated by `?`; `Except.ok none` is a
missing optional table after `.transpose()`; `Except.ok (some t)` a
successfully opened table.  (`TypedTable::new`, which only wraps the
raw table with its resolver map and is total — see `colMap` — is
dropped from the assembler model.) -/
def slotResolve (ts : TablesMap) : Slot → Option (Except CastErr (Option RawTable))
  | .mand n =>
    match byName ts n with
    | none => none
    | some (.error e) => some (.error e)
    | some (.ok t) => some (.ok (some t))
  | .opt n =>
    match byName ts n with
    | none => some (.ok none)
    | some (.error e) => some (.error e)
    | some (.ok t) => some (.ok (some t))

/-- The payload of a slot that resolved without panic or error. -/
def slotOk (ts : TablesMap) (s : Slot) : Option (Option RawTable) :=
  match slotResolve ts s with
  | some (.ok x) => some x
  | _ => none

/-- The assembler loop: the field initializers run in declaration
order; a panic (`none`) or a propagated error ends construction. -/
def dbNewAux (ts : TablesMap) : List Slot → Option (Except CastErr (List (Option RawTable)))
  | [] => some (.ok [])
  | s :: rest =>
    match slotResolve ts s with
    | none => none
    | some (.error e) => some (.error e)
    | some (.ok t) =>
      match dbNewAux ts rest with
      | none => none
      | some (.error e) => some (.error e)
      | some (.ok l) => some (.ok (t :: l))

/-- `TypedDatabase::new`: resolve every slot in construction order.
The `ok` payload lists, slot by slot, the opened raw table (`none` for
an absent optional table). -/
def dbNew (ts : TablesMap) : Option (Except CastErr (List (Option RawTable))) :=
  dbNewAux ts dbSlots

/-- Construction did not produce a database value: it panicked
(missing mandatory table) or returned an error (cast failure). -/
def constructionFailed (x : Option (Except CastErr (List (Option RawTable)))) : Prop :=
  match x with
  | some (Except.ok _) => False
  | _ => True

/-- Every slot in the list resolves without panic or error. -/
def allSlotsOk (ts : TablesMap) (slots : List Slot) : Prop :=
  ∀ s ∈ slots, (slotOk ts s).isSome = true

instance (ts : TablesMap) (slots : List Slot) : Decidable (allSlotsOk ts slots) :=
  inferInstanceAs (Decidable (∀ s ∈ slots, (slotOk ts s).isSome = true))

theorem slotOk_eq_some_iff (ts : TablesMap) (s : Slot) (x : Option RawTable) :
    slotOk ts s = some x ↔ slotResolve ts s = some (Except.ok x) := by
  rw [slotOk]
  cases hres : slotResolve ts s with
  | none => simp
  | some r =>
    cases r with
    | error e => simp
    | ok y => simp

theorem dbNewAux_failed_of_missing (ts : TablesMap) (n : String) :
    ∀ slots : List Slot, Slot.mand n ∈ slots → byName ts n = none →
      constructionFailed (dbNewAux ts slots) := by
  intro slots
  induction slots with
  | nil => intro hmem; exact absurd hmem (List.not_mem_nil _)
  | cons s rest ih =>
    intro hmem hnone
    cases hres : slotResolve ts s with
    | none => rw [dbNewAux, hres]; trivial
    | some r =>
      cases r with
      | error e => rw [dbNewAux, hres]; trivial
      | ok t =>
        cases List.mem_cons.mp hmem with
        | inl heq =>
          exfalso
          rw [← heq, slotResolve, hnone] at hres
          exact Option.noConfusion hres
        | inr hrest =>
          have hfail := ih hrest hnone
          rw [dbNewAux, hres]
          cases haux : dbNewAux ts rest with
          | none => trivial
          | some r2 =>
            cases r2 with
            | error e => trivial
            | ok l => rw [haux] at hfail; exact absurd hfail (by rw [constructionFailed]; simp)

theorem dbNewAux_ok_of_allOk (ts : TablesMap) :
    ∀ slots : List Slot, allSlotsOk ts slots →
      dbNewAux ts slots = some (Except.ok (slots.map (fun s => (slotOk ts s).getD none))) := by
  intro slots
  induction slots with
  | nil => intro _; rfl
  | cons s rest ih =>
    intro hall
    have hs := hall s (List.mem_cons_self s rest)
    obtain ⟨x, hx⟩ := Option.isSome_iff_exists.mp hs
    have hres := (slotOk_eq_some_iff ts s x).mp hx
    have hrest := ih (fun q hq => hall q (List.mem_cons_of_mem s hq))
    rw [dbNewAux, hres, hrest, List.map_cons, hx]
    rfl

theorem dbNewAux_error_after_ok (ts : TablesMap) (s : Slot) (l2 : List Slot) (e : CastErr) :
    ∀ l1 : List Slot, allSlotsOk ts l1 → slotResolve ts s = some (Except.error e) →
      dbNewAux ts (l1 ++ s :: l2) = some (Except.error e) := by
  intro l1
  induction l1 with
  | nil =>
    intro _ hres
    rw [List.nil_append, dbNewAux, hres]
  | cons a l1 ih =>
    intro hall hres
    have ha := hall a (List.mem_cons_self a l1)
    obtain ⟨x, hx⟩ := Option.isSome_iff_exists.mp ha
    have hares := (slotOk_eq_some_iff ts a x).mp hx
    have hrest := ih (fun q hq => hall q (List.mem_cons_of_mem a hq)) hres
    rw [List.cons_append, dbNewAux, hares, hrest]

theorem byName_error_slotResolve (ts : TablesMap) (s : Slot) (e : CastErr)
    (h : byName ts s.nameOf = some (Except.error e)) :
    slotResolve ts s = some (Except.error e) := by
  cases s with
  | mand n =>
    have hn : byName ts n = some (Except.error e) := h
    rw [slotResolve, hn]
  | opt n =>
    have hn : byName ts n = some (Except.error e) := h
    rw [slotResolve, hn]

/-- C9: the assembler fails to construct the database when any
mandatory table is absent (the `.unwrap()` panic); when every slot
resolves, construction succeeds and an absent `RebuildSections`
optional table yields an explicit `none` in its slot (position 32)
rather than a failure; and a structural cast failure on any present
table — reached after the slots before it resolved — is propagated to
the caller as an error value, distinct from the "not found" panic and
never silently defaulted. -/
theorem typed_database_assembler_policy (ts : TablesMap) :
    (∀ n, Slot.mand n ∈ dbSlots → byName ts n = none → constructionFailed (dbNew ts))
      ∧ (allSlotsOk ts dbSlots →
          dbNew ts = some (Except.ok (dbSlots.map (fun s => (slotOk ts s).getD none))))
      ∧ (byName ts "RebuildSections" = none →
          (dbSlots.map (fun s => (slotOk ts s).getD none)).get? 32 = some none)
      ∧ (∀ l1 s l2 e, dbSlots = l1 ++ s :: l2 → allSlotsOk ts l1 →
          byName ts s.nameOf = some (Except.error e) → dbNew ts = some (Except.error e)) := by
  refine ⟨?_, ?_, ?_, ?_⟩
  · intro n hmem hnone
    exact dbNewAux_failed_of_missing ts n dbSlots hmem hnone
  · intro hall
    exact dbNewAux_ok_of_allOk ts dbSlots hall
  · intro habs
    have h32 : dbSlots.get? 32 = some (Slot.opt "RebuildSections") := rfl
    rw [List.get?_eq_getElem?, List.getElem?_map, ← List.get?_eq_getElem?, h32]
    have hok : slotOk ts (Slot.opt "RebuildSections") = some none := by
      rw [slotOk, slotResolve, habs]
    rw [Option.map_some', hok]
    rfl
  · intro l1 s l2 e hsplit hall herr
    rw [dbNew, hsplit]
    exact dbNewAux_error_after_ok ts s l2 e l1 hall (byName_error_slotResolve ts s e herr)

/-- A table set holding every mandatory table (with an empty raw
table) and neither optional table. -/
def tsAllMand : TablesMap :=
  mandatoryNamesDb.map (fun n => (n, Except.ok (RawTable.mk [] [])))

/-- Witness for the C9 theorem: the empty table set fails construction
(missing mandatory table panic); the full mandatory set with both
optional tables absent constructs, with an explicit `none` in the
`RebuildSections` slot; and a table set whose `Activities` table is
present with a bad shape propagates the cast error value. -/
theorem typed_database_assembler_policy_witness :
    (Slot.mand "Activities" ∈ dbSlots ∧ byName [] "Activities" = none ∧
        constructionFailed (dbNew [])) ∧
      (allSlotsOk tsAllMand dbSlots ∧
        dbNew tsAllMand
          = some (Except.ok (dbSlots.map (fun s => (slotOk tsAllMand s).getD none))) ∧
        (dbSlots.map (fun s => (slotOk tsAllMand s).getD none)).get? 32 = some none) ∧
      dbNew [("Activities", Except.error CastErr.castError)]
        = some (Except.error CastErr.castError) :=
  ⟨⟨by decide, rfl, (typed_database_assembler_policy []).1 "Activities" (by decide) rfl⟩,
    ⟨by decide, (typed_database_assembler_policy tsAllMand).2.1 (by decide),
      (typed_database_assembler_policy tsAllMand).2.2.1 rfl⟩,
    (typed_database_assembler_policy [("Activities", Except.error CastErr.castError)]).2.2.2
      [] (Slot.mand "Activities") dbSlots.tail CastErr.castError rfl (by decide) rfl⟩
